import Mathlib

/-!
# Verification of the tdl storage bootstrap layer (`cmd/root.go`)

Shallow embedding of the command shell in `cmd/root.go`: the automatic
legacy-to-bolt migration (`migrateLegacyToBolt`), the persistent pre/post run
hooks of `New`, the session bootstrap (`tRun`), and the namespace flag
completion function. The key-value engines of `pkg/kv`, the dispatch loop of
cobra and `RunWithAuth` of `core/tclient` are not part of the given source
tree; where a claim depends on them they are modelled from the specification,
and each such definition says so in its doc comment.

Effectful Go code is embedded as explicit state passing: every external call
that can fail gets its outcome injected through a world record, and each
function returns, besides its `error` result, the list of calls it performed,
in order.
-/

namespace Tdl

/-- Go error values. `base` is an atomic error, `wrap` is
`errors.Wrap(inner, msg)` from go-faster/errors, and `combine` is the
aggregation of two non-nil errors performed by go.uber.org/multierr. -/
inductive Err where
  | base (code : String)
  | wrap (msg : String) (inner : Err)
  | combine (a b : Err)
  deriving DecidableEq, Repr

/-- A Go `error` variable: `none` is nil. -/
abbrev GoErr := Option Err

/-- `multierr.Append` / binary `multierr.Combine`: nil operands are dropped,
two non-nil errors are aggregated. -/
def multierrAppend : GoErr → GoErr → GoErr
  | none, none => none
  | some e, none => some e
  | none, some e => some e
  | some a, some b => some (.combine a b)

/-- The atomic errors held inside an aggregated error, in order. A `wrap`
counts as one error (its inner error is part of it, not a sibling). -/
def leaves : Err → List Err
  | .base c => [.base c]
  | .wrap m e => [.wrap m e]
  | .combine a b => leaves a ++ leaves b

/-- The atomic errors held inside a possibly-nil Go error. -/
def optLeaves : GoErr → List Err
  | none => []
  | some e => leaves e

/-! ## The key-value store data model

Modelled from the spec: the `pkg/kv` package is not under `src/`. Per the
spec, an engine owns a namespace → key → value mapping; `MigrateTo`
serializes every namespace into a driver-independent blob and `MigrateFrom`
applies such a blob, creating namespaces as needed. -/

/-- The persisted contents of an engine: an association list from namespace
name to an association list from key to value. -/
abbrev Store := List (String × List (String × String))

/-- The keys of one namespace, in storage order. -/
def keysOf (kvs : List (String × String)) : List String := kvs.map Prod.fst

/-- The namespace names of a store, in storage order. -/
def nsNames (s : Store) : List String := s.map Prod.fst

/-- Set key `k` to value `v` inside one namespace: overwrite in place if the
key exists, append otherwise. -/
def putKey : List (String × String) → String → String → List (String × String)
  | [], k, v => [(k, v)]
  | (k₀, v₀) :: rest, k, v =>
      if k₀ = k then (k, v) :: rest else (k₀, v₀) :: putKey rest k v

/-- Set key `k` to `v` in namespace `ns` of the store, creating the namespace
if it does not exist yet. -/
def putNs : Store → String → String → String → Store
  | [], ns, k, v => [(ns, [(k, v)])]
  | (ns₀, kvs) :: rest, ns, k, v =>
      if ns₀ = ns then (ns, putKey kvs k v) :: rest
      else (ns₀, kvs) :: putNs rest ns k v

/-- Look a key up inside one namespace. -/
def lookupKey : List (String × String) → String → Option String
  | [], _ => none
  | (k₀, v₀) :: rest, k => if k₀ = k then some v₀ else lookupKey rest k

/-- Read the value of key `k` in namespace `ns`. -/
def getKV : Store → String → String → Option String
  | [], _, _ => none
  | (ns₀, kvs) :: rest, ns, k =>
      if ns₀ = ns then lookupKey kvs k else getKV rest ns k

/-- Apply a sequence of (namespace, key, value) writes to the empty store. -/
def applyWrites (ws : List (String × String × String)) : Store :=
  List.foldl (fun s w => putNs s w.1 w.2.1 w.2.2) [] ws

/-- Import the key/value pairs of one exported namespace into a store. -/
def importNsPairs (s : Store) (ns : String) (kvs : List (String × String)) :
    Store :=
  List.foldl (fun acc p => putNs acc ns p.1 p.2) s kvs

/-- Apply an exported blob to a store namespace by namespace, key by key,
creating namespaces as needed (the `MigrateFrom` bulk import). -/
def importStore (s : Store) (b : Store) : Store :=
  List.foldl (fun acc e => importNsPairs acc e.1 e.2) s b

/-- The supported storage drivers (`kv.DriverLegacy`, `kv.DriverBolt`). -/
inductive Driver where
  | legacy
  | bolt
  deriving DecidableEq, Repr

/-- Modelled from the spec: a storage engine owns one driver for its whole
lifetime together with its persisted namespace → key → value mapping. -/
structure Engine where
  driver : Driver
  store : Store
  deriving DecidableEq, Repr

/-- Modelled from the spec: `Create(config)` for a recognized driver yields a
fresh engine over an empty store. -/
def createEngine (d : Driver) : Engine := ⟨d, []⟩

/-- Modelled from the spec: `MigrateTo` serializes every namespace, key and
value into a backend-independent export blob; valid even for zero
namespaces. -/
def Engine.MigrateTo (e : Engine) : Store := e.store

/-- Modelled from the spec: `MigrateFrom(blob)` applies a blob to this
engine, creating namespaces as needed. -/
def Engine.MigrateFrom (e : Engine) (b : Store) : Engine :=
  ⟨e.driver, importStore e.store b⟩

/-- Modelled from the spec: `Namespaces()` lists the persisted namespace
names. -/
def Engine.Namespaces (e : Engine) : List String := nsNames e.store

/-! ## The migration coordinator `migrateLegacyToBolt`

Embedding of `migrateLegacyToBolt` in `cmd/root.go`. The outcomes of the
external calls it makes (`kv.NewWithMap` on the two fixed built-in
configurations, `MigrateTo`, `MigrateFrom`, and the two deferred `Close`
calls) are injected through a `MigWorld`; the function returns its `error`
result, the calls it performed in order, and the resulting persisted state. -/

/-- Failure injections for the external calls of `migrateLegacyToBolt`:
`none` means the call succeeds. -/
structure MigWorld where
  newLegacyErr : GoErr
  newBoltErr : GoErr
  migrateToErr : GoErr
  migrateFromErr : GoErr
  closeLegacyErr : GoErr
  closeBoltErr : GoErr
  deriving DecidableEq, Repr

/-- The persisted data of the two default stores. -/
structure KVState where
  legacyData : Store
  boltData : Store
  deriving DecidableEq, Repr

/-- The calls `migrateLegacyToBolt` can perform, in the order it performs
them. `createLegacy` and `createBolt` are `kv.NewWithMap` on
`DefaultLegacyStorage` and `DefaultBoltStorage` respectively. -/
inductive MigEvent where
  | createLegacy
  | createBolt
  | migrateTo
  | migrateFrom
  | closeLegacy
  | closeBolt
  deriving DecidableEq, Repr

/-- Embedding of `migrateLegacyToBolt` (cmd/root.go lines 194-213): create
the legacy engine (returning a wrapped error on failure), defer its close,
create the bolt engine (same), defer its close, export the legacy data with
`MigrateTo` (wrapped error on failure), and import it with `MigrateFrom`
(error returned unwrapped). The deferred closes run on every return after
the corresponding create succeeded, in reverse registration order (bolt,
then legacy), and `multierr.AppendInvoke` aggregates their errors into the
returned error. The read-only behaviour of `MigrateTo` and `Close` on the
persisted data is modelled from the spec, since `pkg/kv` is not under
`src/`. -/
def migrateLegacyToBolt (w : MigWorld) (s : KVState) :
    GoErr × List MigEvent × KVState :=
  match w.newLegacyErr with
  | some e => (some (.wrap "create legacy kv storage" e), [.createLegacy], s)
  | none =>
    match w.newBoltErr with
    | some e =>
        (multierrAppend (some (.wrap "create bolt kv storage" e))
           w.closeLegacyErr,
         [.createLegacy, .createBolt, .closeLegacy], s)
    | none =>
      match w.migrateToErr with
      | some e =>
          (multierrAppend
             (multierrAppend (some (.wrap "migrate legacy to bolt" e))
                w.closeBoltErr)
             w.closeLegacyErr,
           [.createLegacy, .createBolt, .migrateTo, .closeBolt, .closeLegacy],
           s)
      | none =>
          match w.migrateFromErr with
          | some e =>
              (multierrAppend (multierrAppend (some e) w.closeBoltErr)
                 w.closeLegacyErr,
               [.createLegacy, .createBolt, .migrateTo, .migrateFrom,
                .closeBolt, .closeLegacy],
               s)
          | none =>
              (multierrAppend (multierrAppend none w.closeBoltErr)
                 w.closeLegacyErr,
               [.createLegacy, .createBolt, .migrateTo, .migrateFrom,
                .closeBolt, .closeLegacy],
               ⟨s.legacyData, importStore s.boltData s.legacyData⟩)

/-- The primary (non-close) error of one `migrateLegacyToBolt` run, as the
source produces it before the deferred closes append theirs. -/
def migPrimary (w : MigWorld) : GoErr :=
  match w.newLegacyErr with
  | some e => some (.wrap "create legacy kv storage" e)
  | none =>
    match w.newBoltErr with
    | some e => some (.wrap "create bolt kv storage" e)
    | none =>
      match w.migrateToErr with
      | some e => some (.wrap "migrate legacy to bolt" e)
      | none => w.migrateFromErr

/-- The close-time errors of the engines that `migrateLegacyToBolt` actually
closes in a given world, in the order the deferred closes run. -/
def migCloseErrs (w : MigWorld) : List Err :=
  match w.newLegacyErr with
  | some _ => []
  | none =>
    match w.newBoltErr with
    | some _ => optLeaves w.closeLegacyErr
    | none => optLeaves w.closeBoltErr ++ optLeaves w.closeLegacyErr

/-! ## The persistent pre-run and post-run hooks of `New` -/

/-- Inputs of `PersistentPreRunE` (cmd/root.go lines 58-87): the values read
from flags and the filesystem, and the outcomes of the external calls it
makes. `storageFlagChanged` is `cmd.Flags().Lookup(consts.FlagStorage).Changed`,
`boltPathExists` is `fsutil.PathExists(defaultBoltPath)`, and
`newStorageErr` injects the outcome of `kv.NewWithMap` on the configured
storage options. -/
structure PreRunWorld where
  namespaceFlag : String
  storageFlagChanged : Bool
  boltPathExists : Bool
  migWorld : MigWorld
  migState : KVState
  newStorageErr : GoErr
  deriving DecidableEq, Repr

/-- The steps `PersistentPreRunE` can perform, in order. -/
inductive PreRunEvent where
  | initLogger
  | logNamespace
  | migrationRun
  | createStorage
  | attachStorage
  deriving DecidableEq, Repr

/-- Embedding of `PersistentPreRunE` (cmd/root.go lines 58-87): initialize
the logger, log the namespace flag when non-empty, run
`migrateLegacyToBolt` exactly when the storage flag was not changed and the
default bolt path does not exist (wrapping its error), then create the
configured storage engine (wrapping its error) and attach it to the
context. -/
def persistentPreRunE (w : PreRunWorld) : GoErr × List PreRunEvent :=
  let logEvents :=
    [PreRunEvent.initLogger] ++
      (if w.namespaceFlag ≠ "" then [PreRunEvent.logNamespace] else [])
  let afterMig : List PreRunEvent → GoErr × List PreRunEvent := fun evs =>
    match w.newStorageErr with
    | some e => (some (.wrap "create kv storage" e), evs ++ [.createStorage])
    | none => (none, evs ++ [.createStorage, .attachStorage])
  if !w.storageFlagChanged && !w.boltPathExists then
    match (migrateLegacyToBolt w.migWorld w.migState).1 with
    | some e =>
        (some (.wrap "migrate legacy to bolt" e), logEvents ++ [.migrationRun])
    | none => afterMig (logEvents ++ [.migrationRun])
  else
    afterMig logEvents

/-- Embedding of `PersistentPostRunE` (cmd/root.go lines 88-93): the errors
of the engine `Close` and the logger `Sync` are aggregated with
`multierr.Combine`. -/
def persistentPostRunE (closeErr syncErr : GoErr) : GoErr :=
  multierrAppend closeErr syncErr

/-! ## The dispatch shell around one command invocation -/

/-- How the command body of one invocation ends: normally, with a business
error, or cut short by an interrupt propagated through the shared
cancellation context. -/
inductive Outcome where
  | success
  | businessError (e : Err)
  | interrupt
  deriving DecidableEq, Repr

/-- One step of a full command invocation as observed from outside. -/
inductive ShellEvent where
  | pre (e : PreRunEvent)
  | bodyReturned (o : Outcome)
  | engineClose
  | loggerSync
  deriving DecidableEq, Repr

/-- Modelled from the spec: the dispatch loop (cobra `Execute`) is not under
`src/`. Per spec section 4.4, the shell runs `PersistentPreRunE`, then the
command body, and — on success, business error, or interrupt — runs
`PersistentPostRunE` exactly once after the body returns; the hook bodies
themselves (engine `Close` then logger `Sync`, in that order) are from
cmd/root.go lines 88-93. When the pre-run hook fails, the body never
runs. -/
def dispatchTrace (w : PreRunWorld) (o : Outcome) : List ShellEvent :=
  match persistentPreRunE w with
  | (some _, evs) => evs.map ShellEvent.pre
  | (none, evs) =>
      evs.map ShellEvent.pre ++
        [ShellEvent.bodyReturned o, ShellEvent.engineClose,
         ShellEvent.loggerSync]

/-! ## The session bootstrap `tRun` -/

/-- Inputs of `tRun` (cmd/root.go lines 170-192): the outcome of opening the
namespace store (`kv.From(ctx).Open`, yielding a handle on success), the
outcome of constructing the client (`tclient.New`, yielding a client on
success), and the outcome of the authentication phase of `RunWithAuth`.
Handles and clients are modelled as opaque numeric identities. -/
structure TRunWorld where
  openResult : Except Err Nat
  clientResult : Except Err Nat
  authErr : GoErr
  deriving Repr

/-- The calls `tRun` can perform, in order. `taskCall` records the client
and namespace-handle arguments passed to the caller-supplied task
function. -/
inductive TRunEvent where
  | openNs
  | newClient
  | authRun
  | taskCall (client : Nat) (kvd : Nat)
  deriving DecidableEq, Repr

/-- Embedding of `tRun` (cmd/root.go lines 170-192): open the namespace
store (error wrapped as "open kv storage"), construct the client (error
wrapped as "create client"), then hand the client to `RunWithAuth` with a
callback that invokes the caller-supplied task function `f` on the client
and the opened handle and returns the result of `f` as its own. The
behaviour of `RunWithAuth` (core/tclient, not under `src/`) is modelled from
the spec: it authenticates, tags an authentication failure distinctly, and
on success invokes the callback once, propagating its error unchanged. -/
def tRun (w : TRunWorld) (f : Nat → Nat → GoErr) : GoErr × List TRunEvent :=
  match w.openResult with
  | .error e => (some (.wrap "open kv storage" e), [.openNs])
  | .ok kvd =>
    match w.clientResult with
    | .error e => (some (.wrap "create client" e), [.openNs, .newClient])
    | .ok client =>
      match w.authErr with
      | some e =>
          (some (.wrap "auth" e), [.openNs, .newClient, .authRun])
      | none =>
          (f client kvd,
           [.openNs, .newClient, .authRun, .taskCall client kvd])

/-! ## The namespace flag completion function -/

/-- The cobra shell completion directives used by `cmd/root.go`. -/
inductive ShellCompDirective where
  | noFileComp
  | default
  | filterDirs
  deriving DecidableEq, Repr

/-- Embedding of the namespace flag completion function registered in `New`
(cmd/root.go lines 135-142): on a failing `Namespaces()` listing it returns
a nil suggestion list with the no-file-completion directive, otherwise the
listed namespaces with the same directive. It has no error output at
all. -/
def namespaceCompletion (nsResult : Except Err (List String)) :
    Option (List String) × ShellCompDirective :=
  match nsResult with
  | .error _ => (none, .noFileComp)
  | .ok ns => (some ns, .noFileComp)

/-- The message of the outermost wrap of a Go error, if any: the tag a
caller can inspect to tell failure phases apart. -/
def errWrapMsg : GoErr → Option String
  | some (.wrap m _) => some m
  | _ => none

/-! ## Concrete worlds used to instantiate the theorems below -/

/-- A migration world in which every external call succeeds. -/
def migOkWorld : MigWorld := ⟨none, none, none, none, none, none⟩

/-- A migration world in which creating the legacy engine fails and every
other call succeeds. -/
def migLegacyFailWorld : MigWorld :=
  ⟨some (.base "disk"), none, none, none, none, none⟩

/-- A migration world in which the export step `MigrateTo` fails and every
other call succeeds. -/
def migExportFailWorld : MigWorld :=
  ⟨none, none, some (.base "corrupt"), none, none, none⟩

/-- A key-value state with one legacy namespace and an empty bolt store. -/
def oneNsState : KVState := ⟨[("default", [("k", "v")])], []⟩

/-- A pre-run world in which migration is triggered and fails because the
legacy engine cannot be created. -/
def preRunMigFailWorld : PreRunWorld :=
  ⟨"default", false, false, migLegacyFailWorld, oneNsState, none⟩

/-- A pre-run world in which migration is triggered and every call
succeeds. -/
def preRunOkWorld : PreRunWorld :=
  ⟨"default", false, false, migOkWorld, oneNsState, none⟩

/-- A bootstrap world in which opening the namespace store fails. -/
def tRunOpenFailWorld : TRunWorld := ⟨.error (.base "io"), .ok 42, none⟩

/-- A bootstrap world in which constructing the client fails. -/
def tRunClientFailWorld : TRunWorld := ⟨.ok 7, .error (.base "io"), none⟩

/-- A bootstrap world in which authentication fails. -/
def tRunAuthFailWorld : TRunWorld := ⟨.ok 7, .ok 42, some (.base "io")⟩

/-- A bootstrap world in which every phase succeeds. -/
def tRunOkWorld : TRunWorld := ⟨.ok 7, .ok 42, none⟩

/-- A task function that always fails with a recognizable error. -/
def failingTask : Nat → Nat → GoErr := fun _ _ => some (.base "task failed")

/-! ## Aggregation lemmas -/

@[simp] theorem optLeaves_none : optLeaves none = [] := rfl

@[simp] theorem optLeaves_some (e : Err) : optLeaves (some e) = leaves e :=
  rfl

theorem optLeaves_multierrAppend (a b : GoErr) :
    optLeaves (multierrAppend a b) = optLeaves a ++ optLeaves b := by
  cases a <;> cases b <;> simp [multierrAppend, optLeaves, leaves]

theorem count_map_pre (evs : List PreRunEvent) (x : ShellEvent)
    (h : ∀ e, x ≠ ShellEvent.pre e) :
    (evs.map ShellEvent.pre).count x = 0 := by
  rw [List.count_eq_zero]
  intro hmem
  obtain ⟨e, _, he⟩ := List.mem_map.mp hmem
  exact h e he.symm

/-! ## Store lemmas for the migration round-trip -/

/-- A store is well formed when its namespace names are distinct and every
namespace holds a non-empty list of pairwise distinct keys. Stores built by
a sequence of writes are well formed. -/
def WF (s : Store) : Prop :=
  (nsNames s).Nodup ∧ ∀ p ∈ s, (keysOf p.2).Nodup ∧ p.2 ≠ []

@[simp] theorem keysOf_nil : keysOf [] = [] := rfl

@[simp] theorem keysOf_cons (p : String × String) (l : List (String × String)) :
    keysOf (p :: l) = p.1 :: keysOf l := rfl

@[simp] theorem keysOf_append (l₁ l₂ : List (String × String)) :
    keysOf (l₁ ++ l₂) = keysOf l₁ ++ keysOf l₂ := by
  simp [keysOf]

@[simp] theorem nsNames_nil : nsNames [] = [] := rfl

@[simp] theorem nsNames_cons (p : String × List (String × String))
    (l : Store) : nsNames (p :: l) = p.1 :: nsNames l := rfl

@[simp] theorem nsNames_append (l₁ l₂ : Store) :
    nsNames (l₁ ++ l₂) = nsNames l₁ ++ nsNames l₂ := by
  simp [nsNames]

theorem putKey_of_not_mem (kvs : List (String × String)) (k v : String)
    (h : k ∉ keysOf kvs) : putKey kvs k v = kvs ++ [(k, v)] := by
  induction kvs with
  | nil => rfl
  | cons p rest ih =>
      obtain ⟨k₀, v₀⟩ := p
      simp only [keysOf_cons, List.mem_cons] at h
      push_neg at h
      have hne : ¬ k₀ = k := fun e => h.1 e.symm
      simp only [putKey, if_neg hne, List.cons_append, List.cons.injEq,
        true_and]
      exact ih h.2

theorem keysOf_putKey_of_mem (kvs : List (String × String)) (k v : String)
    (h : k ∈ keysOf kvs) : keysOf (putKey kvs k v) = keysOf kvs := by
  induction kvs with
  | nil => simp at h
  | cons p rest ih =>
      obtain ⟨k₀, v₀⟩ := p
      by_cases hk : k₀ = k
      · simp [putKey, hk]
      · simp only [keysOf_cons, List.mem_cons] at h
        rcases h with h | h
        · exact absurd h.symm hk
        · simp only [putKey, if_neg hk, keysOf_cons, List.cons.injEq,
            true_and]
          exact ih h

theorem keysOf_putKey_nodup (kvs : List (String × String)) (k v : String)
    (h : (keysOf kvs).Nodup) : (keysOf (putKey kvs k v)).Nodup := by
  by_cases hk : k ∈ keysOf kvs
  · rw [keysOf_putKey_of_mem kvs k v hk]; exact h
  · rw [putKey_of_not_mem kvs k v hk, keysOf_append]
    rw [List.nodup_append]
    refine ⟨h, by simp, ?_⟩
    intro a ha hb
    simp only [keysOf_cons, keysOf_nil, List.mem_singleton] at hb
    subst hb
    exact hk ha

theorem putKey_ne_nil (kvs : List (String × String)) (k v : String) :
    putKey kvs k v ≠ [] := by
  cases kvs with
  | nil => simp [putKey]
  | cons p rest =>
      obtain ⟨k₀, v₀⟩ := p
      by_cases hk : k₀ = k <;> simp [putKey, hk]

theorem putNs_of_not_mem (s : Store) (ns k v : String)
    (h : ns ∉ nsNames s) : putNs s ns k v = s ++ [(ns, [(k, v)])] := by
  induction s with
  | nil => rfl
  | cons p rest ih =>
      obtain ⟨ns₀, kvs⟩ := p
      simp only [nsNames_cons, List.mem_cons] at h
      push_neg at h
      have hne : ¬ ns₀ = ns := fun e => h.1 e.symm
      simp only [putNs, if_neg hne, List.cons_append, List.cons.injEq,
        true_and]
      exact ih h.2

theorem nsNames_putNs_of_mem (s : Store) (ns k v : String)
    (h : ns ∈ nsNames s) : nsNames (putNs s ns k v) = nsNames s := by
  induction s with
  | nil => simp at h
  | cons p rest ih =>
      obtain ⟨ns₀, kvs⟩ := p
      by_cases hn : ns₀ = ns
      · simp [putNs, hn]
      · simp only [nsNames_cons, List.mem_cons] at h
        rcases h with h | h
        · exact absurd h.symm hn
        · simp only [putNs, if_neg hn, nsNames_cons, List.cons.injEq,
            true_and]
          exact ih h

theorem nsNames_putNs_nodup (s : Store) (ns k v : String)
    (h : (nsNames s).Nodup) : (nsNames (putNs s ns k v)).Nodup := by
  by_cases hn : ns ∈ nsNames s
  · rw [nsNames_putNs_of_mem s ns k v hn]; exact h
  · rw [putNs_of_not_mem s ns k v hn, nsNames_append]
    rw [List.nodup_append]
    refine ⟨h, by simp, ?_⟩
    intro a ha hb
    simp only [nsNames_cons, nsNames_nil, List.mem_singleton] at hb
    subst hb
    exact hn ha

theorem mem_putNs (s : Store) (ns k v : String)
    (h : ∀ p ∈ s, (keysOf p.2).Nodup ∧ p.2 ≠ []) :
    ∀ p ∈ putNs s ns k v, (keysOf p.2).Nodup ∧ p.2 ≠ [] := by
  induction s with
  | nil =>
      intro p hp
      simp only [putNs, List.mem_singleton] at hp
      subst hp
      exact ⟨by simp [keysOf], by simp⟩
  | cons q rest ih =>
      obtain ⟨ns₀, kvs⟩ := q
      intro p hp
      by_cases hn : ns₀ = ns
      · simp only [putNs, if_pos hn, List.mem_cons] at hp
        rcases hp with hp | hp
        · subst hp
          have hq := h (ns₀, kvs) (by simp)
          exact ⟨keysOf_putKey_nodup kvs k v hq.1, putKey_ne_nil kvs k v⟩
        · exact h p (List.mem_cons_of_mem _ hp)
      · simp only [putNs, if_neg hn, List.mem_cons] at hp
        rcases hp with hp | hp
        · subst hp; exact h (ns₀, kvs) (by simp)
        · exact ih (fun q hq => h q (List.mem_cons_of_mem _ hq)) p hp

theorem WF_putNs (s : Store) (ns k v : String) (h : WF s) :
    WF (putNs s ns k v) :=
  ⟨nsNames_putNs_nodup s ns k v h.1, mem_putNs s ns k v h.2⟩

theorem WF_applyWrites (ws : List (String × String × String)) :
    WF (applyWrites ws) := by
  have general : ∀ (l : List (String × String × String)) (s : Store), WF s →
      WF (List.foldl (fun s w => putNs s w.1 w.2.1 w.2.2) s l) := by
    intro l
    induction l with
    | nil => intro s hs; exact hs
    | cons w rest ih =>
        intro s hs
        exact ih (putNs s w.1 w.2.1 w.2.2) (WF_putNs s w.1 w.2.1 w.2.2 hs)
  exact general ws [] ⟨List.nodup_nil, by simp⟩

theorem putNs_append_last (s₁ : Store) (ns k v : String)
    (kvs : List (String × String)) (h : ns ∉ nsNames s₁) :
    putNs (s₁ ++ [(ns, kvs)]) ns k v = s₁ ++ [(ns, putKey kvs k v)] := by
  induction s₁ with
  | nil => simp [putNs]
  | cons p rest ih =>
      obtain ⟨ns₀, kvs₀⟩ := p
      simp only [nsNames_cons, List.mem_cons] at h
      push_neg at h
      have hne : ¬ ns₀ = ns := fun e => h.1 e.symm
      simp only [List.cons_append, putNs, if_neg hne, List.cons.injEq,
        true_and]
      exact ih h.2

theorem importNsPairs_acc (kvs : List (String × String)) (s₁ : Store)
    (ns : String) (acc : List (String × String)) (h : ns ∉ nsNames s₁)
    (hnd : (keysOf acc ++ keysOf kvs).Nodup) :
    importNsPairs (s₁ ++ [(ns, acc)]) ns kvs = s₁ ++ [(ns, acc ++ kvs)] := by
  induction kvs generalizing acc with
  | nil => simp [importNsPairs]
  | cons p rest ih =>
      obtain ⟨k, v⟩ := p
      have hk : k ∉ keysOf acc := by
        rw [List.nodup_append] at hnd
        exact fun hmem => hnd.2.2 hmem (by simp [keysOf])
      have step : putNs (s₁ ++ [(ns, acc)]) ns k v =
          s₁ ++ [(ns, acc ++ [(k, v)])] := by
        rw [putNs_append_last s₁ ns k v acc h, putKey_of_not_mem acc k v hk]
      have hnd₂ : (keysOf (acc ++ [(k, v)]) ++ keysOf rest).Nodup := by
        simp only [keysOf_append, keysOf_cons, keysOf_nil] at hnd ⊢
        simpa [List.append_assoc] using hnd
      calc importNsPairs (s₁ ++ [(ns, acc)]) ns ((k, v) :: rest)
      _ = importNsPairs (putNs (s₁ ++ [(ns, acc)]) ns k v) ns rest := rfl
      _ = importNsPairs (s₁ ++ [(ns, acc ++ [(k, v)])]) ns rest := by
        rw [step]
      _ = s₁ ++ [(ns, (acc ++ [(k, v)]) ++ rest)] := ih (acc ++ [(k, v)]) hnd₂
      _ = s₁ ++ [(ns, acc ++ (k, v) :: rest)] := by simp

theorem importNsPairs_fresh (s : Store) (ns : String)
    (kvs : List (String × String)) (h : ns ∉ nsNames s)
    (hnd : (keysOf kvs).Nodup) (hne : kvs ≠ []) :
    importNsPairs s ns kvs = s ++ [(ns, kvs)] := by
  cases kvs with
  | nil => exact absurd rfl hne
  | cons p rest =>
      obtain ⟨k, v⟩ := p
      have step : putNs s ns k v = s ++ [(ns, [(k, v)])] :=
        putNs_of_not_mem s ns k v h
      have hnd₂ : (keysOf [(k, v)] ++ keysOf rest).Nodup := by
        simpa [keysOf] using hnd
      calc importNsPairs s ns ((k, v) :: rest)
      _ = importNsPairs (putNs s ns k v) ns rest := rfl
      _ = importNsPairs (s ++ [(ns, [(k, v)])]) ns rest := by rw [step]
      _ = s ++ [(ns, [(k, v)] ++ rest)] := importNsPairs_acc rest s ns _ h hnd₂
      _ = s ++ [(ns, (k, v) :: rest)] := by simp

theorem importStore_of_disjoint (b : Store) (s : Store)
    (hnd : (nsNames b).Nodup)
    (hwf : ∀ p ∈ b, (keysOf p.2).Nodup ∧ p.2 ≠ [])
    (hdisj : ∀ n ∈ nsNames b, n ∉ nsNames s) :
    importStore s b = s ++ b := by
  induction b generalizing s with
  | nil => simp [importStore]
  | cons p rest ih =>
      obtain ⟨ns, kvs⟩ := p
      have hw := hwf (ns, kvs) (by simp)
      have hns : ns ∉ nsNames s := hdisj ns (by simp)
      have step : importNsPairs s ns kvs = s ++ [(ns, kvs)] :=
        importNsPairs_fresh s ns kvs hns hw.1 hw.2
      have hnd' : ns ∉ nsNames rest ∧ (nsNames rest).Nodup := by
        simpa using hnd
      have hdisj₂ : ∀ n ∈ nsNames rest, n ∉ nsNames (s ++ [(ns, kvs)]) := by
        intro n hn
        simp only [nsNames_append, nsNames_cons, nsNames_nil,
          List.mem_append, List.mem_singleton]
        push_neg
        refine ⟨hdisj n (by simp [hn]), ?_⟩
        intro hcontra
        subst hcontra
        exact hnd'.1 hn
      calc importStore s ((ns, kvs) :: rest)
      _ = importStore (importNsPairs s ns kvs) rest := rfl
      _ = importStore (s ++ [(ns, kvs)]) rest := by rw [step]
      _ = (s ++ [(ns, kvs)]) ++ rest :=
        ih (s ++ [(ns, kvs)]) hnd'.2
          (fun q hq => hwf q (List.mem_cons_of_mem _ hq)) hdisj₂
      _ = s ++ (ns, kvs) :: rest := by simp

theorem importStore_nil_of_WF (b : Store) (h : WF b) :
    importStore [] b = b := by
  have := importStore_of_disjoint b [] h.1 h.2 (by simp [nsNames])
  simpa using this

/-! ## Claim theorems -/

/-- Claim C1: the automatic legacy-to-bolt migration runs during process
startup if and only if the storage configuration flag was not explicitly set
and the default bolt store path does not yet exist; if either the flag was
set or the path exists, the migration coordinator is not invoked at all. -/
theorem migration_trigger_iff (w : PreRunWorld) :
    PreRunEvent.migrationRun ∈ (persistentPreRunE w).2 ↔
      w.storageFlagChanged = false ∧ w.boltPathExists = false := by
  obtain ⟨nsf, sc, bp, mw, ms, se⟩ := w
  cases sc <;> cases bp <;>
    cases hmig : (migrateLegacyToBolt mw ms).1 <;> cases se <;>
      by_cases hns : nsf = "" <;>
        simp [persistentPreRunE, hmig, hns]

/-- Claim C2: for any sequence of namespace/key/value writes persisted under
driver A, exporting with `MigrateTo` and importing the blob with
`MigrateFrom` into a freshly created engine of driver B reproduces exactly
the same namespace-to-key-to-value mapping (indeed the identical store and
namespace list), for every driver pair, including the zero-write,
zero-namespace case. -/
theorem migrate_roundtrip_exact (dA dB : Driver)
    (ws : List (String × String × String)) :
    ((createEngine dB).MigrateFrom
        ((Engine.mk dA (applyWrites ws)).MigrateTo)).store = applyWrites ws ∧
    (∀ ns k,
      getKV ((createEngine dB).MigrateFrom
          ((Engine.mk dA (applyWrites ws)).MigrateTo)).store ns k =
        getKV (applyWrites ws) ns k) ∧
    ((createEngine dB).MigrateFrom
        ((Engine.mk dA (applyWrites ws)).MigrateTo)).Namespaces =
      nsNames (applyWrites ws) := by
  have h : importStore [] (applyWrites ws) = applyWrites ws :=
    importStore_nil_of_WF _ (WF_applyWrites ws)
  refine ⟨?_, ?_, ?_⟩ <;>
    simp [Engine.MigrateFrom, Engine.MigrateTo, createEngine,
      Engine.Namespaces, h]

/-- Claim C3 counterexample: in a run where the export step `MigrateTo`
fails (and nothing else does), the coordinator never calls `MigrateFrom`,
so it does not perform all the claimed steps even though it does close both
engines. -/
theorem migrate_steps_counterexample :
    (migrateLegacyToBolt migExportFailWorld oneNsState).2.1 =
      [.createLegacy, .createBolt, .migrateTo, .closeBolt, .closeLegacy] ∧
    MigEvent.migrateFrom ∉
      (migrateLegacyToBolt migExportFailWorld oneNsState).2.1 := by
  exact ⟨rfl, by decide⟩

/-- Claim C3 as amended: when triggered, the coordinator attempts, in order,
creating the legacy-default engine, creating the new-default engine, calling
`MigrateTo` on the legacy engine and `MigrateFrom` on the new engine,
stopping at the first failing step, and closes every engine that was
successfully created regardless of later failures (bolt first, then
legacy); in particular when no step fails it performs exactly the claimed
steps in that order. -/
theorem migrate_steps_amended (w : MigWorld) (s : KVState) :
    (migrateLegacyToBolt w s).2.1 =
      if w.newLegacyErr.isSome then [MigEvent.createLegacy]
      else if w.newBoltErr.isSome then
        [MigEvent.createLegacy, MigEvent.createBolt, MigEvent.closeLegacy]
      else if w.migrateToErr.isSome then
        [MigEvent.createLegacy, MigEvent.createBolt, MigEvent.migrateTo,
         MigEvent.closeBolt, MigEvent.closeLegacy]
      else
        [MigEvent.createLegacy, MigEvent.createBolt, MigEvent.migrateTo,
         MigEvent.migrateFrom, MigEvent.closeBolt, MigEvent.closeLegacy] := by
  obtain ⟨le, be, te, fe, cl, cb⟩ := w
  cases le <;> cases be <;> cases te <;> cases fe <;> rfl

/-- Claim C4: whenever the automatic migration is triggered and fails with
some error, process startup aborts: the pre-run hook returns a non-nil
error wrapping the migration failure, and neither creates nor attaches the
storage engine. -/
theorem migration_failure_aborts (w : PreRunWorld) (e : Err)
    (h₁ : w.storageFlagChanged = false) (h₂ : w.boltPathExists = false)
    (h₃ : (migrateLegacyToBolt w.migWorld w.migState).1 = some e) :
    (persistentPreRunE w).1 = some (.wrap "migrate legacy to bolt" e) ∧
    PreRunEvent.createStorage ∉ (persistentPreRunE w).2 ∧
    PreRunEvent.attachStorage ∉ (persistentPreRunE w).2 := by
  obtain ⟨nsf, sc, bp, mw, ms, se⟩ := w
  simp only at h₁ h₂ h₃
  subst h₁
  subst h₂
  by_cases hns : nsf = "" <;>
    simp [persistentPreRunE, h₃, hns]

/-- Witness for C4: a concrete triggered world in which creating the legacy
engine fails. -/
theorem migration_failure_aborts_witness :
    (migrateLegacyToBolt preRunMigFailWorld.migWorld
        preRunMigFailWorld.migState).1 =
      some (.wrap "create legacy kv storage" (.base "disk")) ∧
    ((persistentPreRunE preRunMigFailWorld).1 =
        some (.wrap "migrate legacy to bolt"
          (.wrap "create legacy kv storage" (.base "disk"))) ∧
      PreRunEvent.createStorage ∉ (persistentPreRunE preRunMigFailWorld).2 ∧
      PreRunEvent.attachStorage ∉ (persistentPreRunE preRunMigFailWorld).2) :=
  ⟨rfl, migration_failure_aborts preRunMigFailWorld _ rfl rfl rfl⟩

/-- Claim C5: the automatic migration path never mutates the legacy source
store: on any outcome of `migrateLegacyToBolt`, the legacy persisted data is
unchanged. -/
theorem migration_preserves_legacy (w : MigWorld) (s : KVState) :
    ((migrateLegacyToBolt w s).2.2).legacyData = s.legacyData := by
  obtain ⟨le, be, te, fe, cl, cb⟩ := w
  cases le <;> cases be <;> cases te <;> cases fe <;> rfl

/-- Claim C6: close-time errors are always aggregated with the primary
error of the same operation and vice versa: the post-run hook combines the
engine close error and the logger sync error, losing neither and returning
nil exactly when both are nil, and the migration coordinator returns an
error whose atomic components are exactly the primary error followed by the
close errors of the engines it actually closed. -/
theorem close_errors_aggregated :
    (∀ closeErr syncErr : GoErr,
      optLeaves (persistentPostRunE closeErr syncErr) =
          optLeaves closeErr ++ optLeaves syncErr ∧
        (persistentPostRunE closeErr syncErr = none ↔
          closeErr = none ∧ syncErr = none)) ∧
    (∀ (w : MigWorld) (s : KVState),
      optLeaves (migrateLegacyToBolt w s).1 =
        optLeaves (migPrimary w) ++ migCloseErrs w) := by
  constructor
  · intro c s
    refine ⟨optLeaves_multierrAppend c s, ?_⟩
    cases c <;> cases s <;> simp [persistentPostRunE, multierrAppend]
  · intro w s
    obtain ⟨le, be, te, fe, cl, cb⟩ := w
    cases le <;> cases be <;> cases te <;> cases fe <;>
      simp only [migrateLegacyToBolt, migPrimary, migCloseErrs,
        optLeaves_multierrAppend, optLeaves_none, optLeaves_some, leaves,
        List.append_assoc, List.nil_append, List.append_nil]

/-- Claim C7: on every exit path of one command invocation — success,
business error, or interrupt — the engine close and the logger flush are
each performed exactly once, after the command body returns. -/
theorem teardown_exactly_once (w : PreRunWorld) (o : Outcome)
    (h : (persistentPreRunE w).1 = none) :
    (dispatchTrace w o).count ShellEvent.engineClose = 1 ∧
    (dispatchTrace w o).count ShellEvent.loggerSync = 1 ∧
    ∃ pre post,
      dispatchTrace w o = pre ++ ShellEvent.bodyReturned o :: post ∧
      ShellEvent.engineClose ∈ post ∧ ShellEvent.loggerSync ∈ post := by
  rcases hpre : persistentPreRunE w with ⟨err, evs⟩
  have herr : err = none := by rw [hpre] at h; exact h
  subst herr
  have htrace : dispatchTrace w o =
      evs.map ShellEvent.pre ++
        [ShellEvent.bodyReturned o, ShellEvent.engineClose,
         ShellEvent.loggerSync] := by
    unfold dispatchTrace
    rw [hpre]
  have hclose : (evs.map ShellEvent.pre).count ShellEvent.engineClose = 0 :=
    count_map_pre evs _ (fun e => by intro hcontra; cases hcontra)
  have hsync : (evs.map ShellEvent.pre).count ShellEvent.loggerSync = 0 :=
    count_map_pre evs _ (fun e => by intro hcontra; cases hcontra)
  refine ⟨?_, ?_, evs.map ShellEvent.pre,
    [ShellEvent.engineClose, ShellEvent.loggerSync], by simpa using htrace,
    by simp, by simp⟩
  · rw [htrace, List.count_append, hclose]
    simp [List.count_cons]
  · rw [htrace, List.count_append, hsync]
    simp [List.count_cons]

/-- Witness for C7: a concrete world in which the pre-run hook succeeds. -/
theorem teardown_exactly_once_witness :
    (persistentPreRunE preRunOkWorld).1 = none ∧
    ((dispatchTrace preRunOkWorld Outcome.interrupt).count
        ShellEvent.engineClose = 1 ∧
      (dispatchTrace preRunOkWorld Outcome.interrupt).count
        ShellEvent.loggerSync = 1 ∧
      ∃ pre post,
        dispatchTrace preRunOkWorld Outcome.interrupt =
            pre ++ ShellEvent.bodyReturned Outcome.interrupt :: post ∧
          ShellEvent.engineClose ∈ post ∧ ShellEvent.loggerSync ∈ post) :=
  ⟨rfl, teardown_exactly_once preRunOkWorld Outcome.interrupt rfl⟩

/-- Claim C8: the three failure phases of the session bootstrap — opening
the namespace store, constructing the client, authenticating — produce
differently wrapped errors, so a caller can tell which phase failed. -/
theorem tRun_failure_tags (e : Err) (f : Nat → Nat → GoErr)
    (w₁ w₂ w₃ : TRunWorld) (kvd c : Nat)
    (h₁ : w₁.openResult = .error e)
    (h₂o : w₂.openResult = .ok kvd) (h₂ : w₂.clientResult = .error e)
    (h₃o : w₃.openResult = .ok kvd) (h₃c : w₃.clientResult = .ok c)
    (h₃ : w₃.authErr = some e) :
    (tRun w₁ f).1 = some (.wrap "open kv storage" e) ∧
    (tRun w₂ f).1 = some (.wrap "create client" e) ∧
    (tRun w₃ f).1 = some (.wrap "auth" e) ∧
    errWrapMsg (tRun w₁ f).1 ≠ errWrapMsg (tRun w₂ f).1 ∧
    errWrapMsg (tRun w₁ f).1 ≠ errWrapMsg (tRun w₃ f).1 ∧
    errWrapMsg (tRun w₂ f).1 ≠ errWrapMsg (tRun w₃ f).1 := by
  have r₁ : (tRun w₁ f).1 = some (.wrap "open kv storage" e) := by
    simp [tRun, h₁]
  have r₂ : (tRun w₂ f).1 = some (.wrap "create client" e) := by
    simp [tRun, h₂o, h₂]
  have r₃ : (tRun w₃ f).1 = some (.wrap "auth" e) := by
    simp [tRun, h₃o, h₃c, h₃]
  refine ⟨r₁, r₂, r₃, ?_, ?_, ?_⟩ <;>
    simp only [r₁, r₂, r₃, errWrapMsg] <;> decide

/-- Witness for C8: three concrete bootstrap worlds failing in the three
distinct phases. -/
theorem tRun_failure_tags_witness :
    (tRun tRunOpenFailWorld failingTask).1 =
        some (.wrap "open kv storage" (.base "io")) ∧
    (tRun tRunClientFailWorld failingTask).1 =
        some (.wrap "create client" (.base "io")) ∧
    (tRun tRunAuthFailWorld failingTask).1 =
        some (.wrap "auth" (.base "io")) ∧
    errWrapMsg (tRun tRunOpenFailWorld failingTask).1 ≠
        errWrapMsg (tRun tRunClientFailWorld failingTask).1 ∧
    errWrapMsg (tRun tRunOpenFailWorld failingTask).1 ≠
        errWrapMsg (tRun tRunAuthFailWorld failingTask).1 ∧
    errWrapMsg (tRun tRunClientFailWorld failingTask).1 ≠
        errWrapMsg (tRun tRunAuthFailWorld failingTask).1 :=
  tRun_failure_tags (.base "io") failingTask tRunOpenFailWorld
    tRunClientFailWorld tRunAuthFailWorld 7 42 rfl rfl rfl rfl rfl rfl

/-- Claim C9: when namespace open, client construction and authentication
all succeed, the bootstrap invokes the caller-supplied task function exactly
once, with the live client and the opened namespace handle, and returns the
task's error value unchanged. -/
theorem tRun_success_task (w : TRunWorld) (f : Nat → Nat → GoErr)
    (kvd c : Nat) (ho : w.openResult = .ok kvd)
    (hc : w.clientResult = .ok c) (ha : w.authErr = none) :
    (tRun w f).1 = f c kvd ∧
    (tRun w f).2.count (TRunEvent.taskCall c kvd) = 1 ∧
    ∀ c' k', TRunEvent.taskCall c' k' ∈ (tRun w f).2 →
      c' = c ∧ k' = kvd := by
  have hr : tRun w f =
      (f c kvd, [.openNs, .newClient, .authRun, .taskCall c kvd]) := by
    simp [tRun, ho, hc, ha]
  refine ⟨by rw [hr], by rw [hr]; simp [List.count_cons], ?_⟩
  intro c' k' hmem
  rw [hr] at hmem
  simp at hmem
  exact ⟨hmem.1, hmem.2⟩

/-- Witness for C9: a concrete all-success world with a failing task
function whose error comes back unchanged. -/
theorem tRun_success_task_witness :
    (tRun tRunOkWorld failingTask).1 = failingTask 42 7 ∧
    (tRun tRunOkWorld failingTask).2.count (TRunEvent.taskCall 42 7) = 1 ∧
    ∀ c' k', TRunEvent.taskCall c' k' ∈ (tRun tRunOkWorld failingTask).2 →
      c' = 42 ∧ k' = 7 :=
  tRun_success_task tRunOkWorld failingTask 7 42 rfl rfl rfl

/-- Claim C10: the namespace completion function never surfaces an error:
a failing listing yields a nil suggestion list with the no-file-completion
directive, and a successful listing is returned exactly and in order, with
the same directive. -/
theorem namespace_completion_spec (r : Except Err (List String)) (e : Err)
    (l : List String) :
    namespaceCompletion (.error e) = (none, .noFileComp) ∧
    namespaceCompletion (.ok l) = (some l, .noFileComp) ∧
    (namespaceCompletion r).2 = .noFileComp := by
  refine ⟨rfl, rfl, ?_⟩
  cases r <;> rfl

end Tdl
